import Mathlib

set_option maxRecDepth 16384

/-!
# Verification of the rtlsdr-airband matrix uploader

A shallow embedding of `src/uploader.py`.  Strings are modelled as `List Char`
(the characters of the Python `str`).  File I/O, the environment lookup, logging
and the network collaborators are elided: functions take the relevant text or
collaborator results as explicit arguments, exactly as the spec's interface
signatures do.

Python `float` arithmetic is modelled bit-exactly as IEEE-754 binary64 over
a shallow representation: a non-negative double is a dyadic rational
`m * 2 ^ e` (structure `F64`); converting a decimal literal or an integer
quotient rounds the exact rational value to 53 significant bits with ties to
even — which is what CPython's correctly-rounded `float(str)` and `int/int`
true division compute — and each arithmetic operation rounds its exact result
once, as IEEE-754 prescribes.  The exponent range is not bounded in the
model: overflow to infinity and the reduced-precision subnormal range are
outside the domains the theorems quantify over (the size hypotheses keep the
values well inside binary64's normal range, wherever it matters for the
result).  `int(x)` on a non-negative double is truncation toward zero.
-/

namespace Uploader

/-- The whitespace characters stripped by Python `str.strip()` and matched by
the regex class `\s` (ASCII part, which is all the configuration format uses). -/
def isPySpace (c : Char) : Bool :=
  c = ' ' || c = '\t' || c = '\n' || c = '\r' || c = '\x0b' || c = '\x0c'

/-- Python `str.strip()`: remove leading and trailing whitespace. -/
def pyStrip (s : List Char) : List Char :=
  ((s.dropWhile isPySpace).reverse.dropWhile isPySpace).reverse

/-- `haystack.find(needle, start)` restricted to the part of the haystack from
index `start` on: auxiliary scanner returning the absolute index of the first
occurrence. -/
def findAux (hay pat : List Char) (i : Nat) : Option Nat :=
  match hay with
  | [] => if pat = [] then some i else none
  | _ :: rest => if pat.isPrefixOf hay then some i else findAux rest pat (i + 1)

/-- Python `content.find(pat, start)`, with `none` for `-1`. -/
def pyFind (content pat : List Char) (start : Nat) : Option Nat :=
  findAux (content.drop start) pat start

/-- Value of a list of decimal digit characters (most significant first). -/
def digitsToNat (ds : List Char) : Nat :=
  ds.foldl (fun acc c => acc * 10 + (c.toNat - '0'.toNat)) 0

/-- Python's substring membership test `pat in hay`. -/
def containsSub (hay pat : List Char) : Bool :=
  (pyFind hay pat 0).isSome

/-- Result of matching the quoted-value regex
`(\d+\.?\d*)([kKmMgG]?)$` with `re.match` (anchored at the start, must reach
the end): the numeric group as a scaled pair `(numerator, scale)` so that its
value is `numerator / scale`, together with the optional unit letter.
Greedy matching is deterministic for this pattern: `\d+` must take the maximal
digit run (a digit left behind could only be consumed by `\.?` or the unit
class, which match no digit), likewise `\d*` after the optional dot. -/
def matchQuotedValue (cs : List Char) : Option ((Nat × Nat) × Option Char) :=
  let d1 := cs.takeWhile (·.isDigit)
  if d1 = [] then none
  else
    let rest := cs.dropWhile (·.isDigit)
    let (numer, scale, rest2) :=
      if rest.head? = some '.' then
        let d2 := (rest.drop 1).takeWhile (·.isDigit)
        (digitsToNat (d1 ++ d2), 10 ^ d2.length, (rest.drop 1).dropWhile (·.isDigit))
      else (digitsToNat d1, 1, rest)
    match rest2 with
    | [] => some ((numer, scale), none)
    | [u] =>
      if u = 'k' || u = 'K' || u = 'm' || u = 'M' || u = 'g' || u = 'G' then
        some ((numer, scale), some u)
      else none
    | _ => none

/-- A non-negative IEEE-754 binary64 value, as the dyadic rational
`m * 2 ^ e`.  Produced by `f64OfRat`, so `m` has 53 significant bits (zero is
`⟨0, 0⟩`); the exponent is unbounded — see the module comment. -/
structure F64 where
  m : Nat
  e : Int
  deriving DecidableEq, Repr

/-- Scale the positive fraction `p / q` by powers of two until the quotient
lies in `[2^52, 2^53)`, returning the scaled pair and the binary exponent.
One unit of fuel per doubling/halving; the callers pass fuel that covers the
whole binary64 exponent range many times over. -/
def normPair : Nat → Nat → Nat → Int → Nat × Nat × Int
  | 0, p, q, e => (p, q, e)
  | fuel + 1, p, q, e =>
    if p < q * 4503599627370496 then normPair fuel (p * 2) q (e - 1)
    else if q * 9007199254740992 ≤ p then normPair fuel p (q * 2) (e + 1)
    else (p, q, e)

/-- Round the fraction `p / q` (with `q > 0`) to the nearest integer, ties to
even: the IEEE-754 default rounding applied to an exact quotient. -/
def roundNE (p q : Nat) : Nat :=
  let d := p / q
  let r := p % q
  if 2 * r < q then d
  else if q < 2 * r then d + 1
  else if d % 2 = 0 then d else d + 1

/-- The binary64 value nearest to the exact rational `a / b` (for `b > 0`),
ties to even: the result of CPython's `float(<decimal literal>)` and of
`int / int` true division, both of which are correctly rounded. -/
def f64OfRat (a b : Nat) : F64 :=
  if a = 0 then ⟨0, 0⟩
  else
    let t := normPair 4400 a b 0
    ⟨roundNE t.1 t.2.1, t.2.2⟩

/-- One IEEE-754 binary64 multiplication of the double `x` by the small
integer constant `t` (itself exactly representable): round the exact product
once. -/
def f64MulNat (x : F64) (t : Nat) : F64 :=
  if 0 ≤ x.e then f64OfRat (x.m * t * 2 ^ x.e.toNat) 1
  else f64OfRat (x.m * t) (2 ^ (-x.e).toNat)

/-- Python `int(x)` on a non-negative double: truncation toward zero, which
for these values is the floor. -/
def f64Trunc (x : F64) : Nat :=
  if 0 ≤ x.e then x.m * 2 ^ x.e.toNat else x.m / 2 ^ (-x.e).toNat

/-- Python `float(s)` restricted to plain decimal numerals
(`[+-]? digits [. digits] | [+-]? . digits`), which is the only form the
configuration format uses: returns the sign and the value as a scaled pair
`(numerator, scale)`.  Exponent forms, `inf`/`nan` and digit-group
underscores accepted by the real `float` are outside the modelled grammar. -/
def parseDecimal (cs : List Char) : Option (Bool × Nat × Nat) :=
  let (neg, body) :=
    if cs.head? = some '-' then (true, cs.drop 1)
    else if cs.head? = some '+' then (false, cs.drop 1)
    else (false, cs)
  let d1 := body.takeWhile (·.isDigit)
  let rest := body.dropWhile (·.isDigit)
  if rest.head? = some '.' then
    let d2 := (rest.drop 1).takeWhile (·.isDigit)
    if (rest.drop 1).dropWhile (·.isDigit) = [] ∧ (d1 ≠ [] ∨ d2 ≠ []) then
      some (neg, digitsToNat (d1 ++ d2), 10 ^ d2.length)
    else none
  else if rest = [] then
    if d1 ≠ [] then some (neg, digitsToNat d1, 1) else none
  else none

/-- Python `int(s)` restricted to plain signed decimal numerals (digit-group
underscores are outside the modelled grammar). -/
def parsePyInt (cs : List Char) : Option Int :=
  let (neg, body) :=
    if cs.head? = some '-' then (true, cs.drop 1)
    else if cs.head? = some '+' then (false, cs.drop 1)
    else (false, cs)
  if body ≠ [] ∧ body.all (·.isDigit) then
    some (if neg then -(digitsToNat body : Int) else (digitsToNat body : Int))
  else none

/-- The body of `parse_frequency` (uploader.py lines 202-245) after the
initial strip: parse a frequency value string into integer Hz.  `none`
models the raised `ValueError`.  Branching follows the source: a value both
starting and ending in `"` has its quotes removed and is matched against
`(\d+\.?\d*)([kKmMgG]?)$`; `num_part = float(group 1)` is the correctly
rounded double of the numeral (`f64OfRat` on its scaled-integer form) and the
if/elif chain computes `int(num_part * M)` — one binary64 multiplication,
then truncation — with M = 10^3 / 10^6 / 10^9 for k/m/g, or `int(num_part)`
with no letter.  A bare value is MHz (`int(float(v) * 10^6)`) when it
contains a `.`, and an arbitrary-precision integer Hz value otherwise. -/
def parse_frequency_stripped (v : List Char) : Option Int :=
  if v.head? = some '"' ∧ v.getLast? = some '"' then
    match matchQuotedValue ((v.drop 1).dropLast) with
    | none => none
    | some ((numer, scale), u) =>
      match u.map Char.toLower with
      | some 'k' => some ((f64Trunc (f64MulNat (f64OfRat numer scale) 1000) : Int))
      | some 'm' => some ((f64Trunc (f64MulNat (f64OfRat numer scale) 1000000) : Int))
      | some 'g' =>
        some ((f64Trunc (f64MulNat (f64OfRat numer scale) 1000000000) : Int))
      | _ => some ((f64Trunc (f64OfRat numer scale) : Int))
  else
    if v.contains '.' then
      match parseDecimal v with
      | none => none
      | some (neg, numer, scale) =>
        let t := f64Trunc (f64MulNat (f64OfRat numer scale) 1000000)
        some (if neg then -(t : Int) else (t : Int))
    else
      parsePyInt v

/-- The source first reassigns `value_str = value_str.strip()` and then works
only on the stripped value; the embedding factors that into a wrapper. -/
def parse_frequency (s : List Char) : Option Int :=
  parse_frequency_stripped (pyStrip s)

/-- The scan of `extract_channels_content` (uploader.py lines 121-135): walk
the characters from the opening parenthesis, keeping a running count that a
`(` increments and a `)` decrements; return the absolute index of the `)`
that brings the count to zero.  `i` is the absolute index of the head of
`hay`; `count` is the running count (an integer, as in the source). -/
def findMatchingParen (hay : List Char) (i : Nat) (count : Int) : Option Nat :=
  match hay with
  | [] => none
  | c :: rest =>
    if c = '(' then findMatchingParen rest (i + 1) (count + 1)
    else if c = ')' then
      if count - 1 = 0 then some i else findMatchingParen rest (i + 1) (count - 1)
    else findMatchingParen rest (i + 1) count

/-- `extract_channels_content` (uploader.py lines 107-135): find `channels:`,
the first `(` from there, the depth-zero matching `)`, require the next
character to be `;`, and return `content[paren_start+1:i].strip()`.
`none` models every logged-warning early return. -/
def extract_channels_content (content : List Char) : Option (List Char) :=
  match pyFind content "channels:".data 0 with
  | none => none
  | some channels_start =>
    match pyFind content "(".data channels_start with
    | none => none
    | some paren_start =>
      match findMatchingParen (content.drop paren_start) paren_start 0 with
      | none => none
      | some i =>
        if (content.drop (i + 1)).head? = some ';' then
          some (pyStrip ((content.drop (paren_start + 1)).take (i - (paren_start + 1))))
        else none

/-- Defined from the spec's words for the refinement comparison of the
section-extraction result: the same scan, but returning the raw substring
strictly between the outer parentheses, character for character, with no
whitespace stripping. -/
def extractRawBetween (content : List Char) : Option (List Char) :=
  match pyFind content "channels:".data 0 with
  | none => none
  | some channels_start =>
    match pyFind content "(".data channels_start with
    | none => none
    | some paren_start =>
      match findMatchingParen (content.drop paren_start) paren_start 0 with
      | none => none
      | some i =>
        if (content.drop (i + 1)).head? = some ';' then
          some ((content.drop (paren_start + 1)).take (i - (paren_start + 1)))
        else none

/-- Split a list at the first occurrence of the character `t`: returns the
part strictly before it and the part strictly after it, if `t` occurs. -/
def splitAtChar (cs : List Char) (t : Char) : Option (List Char × List Char) :=
  match cs with
  | [] => none
  | c :: rest =>
    if c = t then some ([], rest)
    else
      match splitAtChar rest t with
      | some (a, b) => some (c :: a, b)
      | none => none

/-- `re.findall(r'\{.*?\}', s, re.DOTALL)` (uploader.py line 166): each match
starts at the next `{` and, `.*?` being non-greedy, ends at the first `}`
after it (with DOTALL the body may span lines and may itself contain `{`).
Fuel-indexed scanner; one unit of fuel is spent per character consumed, so
`cs.length` fuel always suffices. -/
def findBlocksAux (fuel : Nat) (cs : List Char) : List (List Char) :=
  match fuel with
  | 0 => []
  | fuel + 1 =>
    match cs with
    | [] => []
    | c :: rest =>
      if c = '{' then
        match splitAtChar rest '}' with
        | some (body, after) => ('{' :: body ++ ['}']) :: findBlocksAux fuel after
        | none => []
      else findBlocksAux fuel rest

/-- All channel blocks of a section, in source order. -/
def findBlocks (cs : List Char) : List (List Char) :=
  findBlocksAux cs.length cs

/-- The group of `re.search(r'freq\s*=\s*(.*?);', block)` when the pattern
matches at the current position: after `freq`, `\s*` greedily takes the
whitespace before the mandatory `=` (no whitespace character can satisfy the
literal `=`, so the greedy run is the only candidate), then `\s*` again, then
the non-greedy group runs to the first `;`, failing on a `\n` before it
(DOTALL is not set for this regex, so `.` excludes newline; shifting trailing
whitespace from `\s*` into the group by backtracking can never rescue a
failure, since the same blocking character is still ahead of the group). -/
def takeGroupToSemicolon (cs : List Char) : Option (List Char) :=
  match cs with
  | [] => none
  | c :: rest =>
    if c = ';' then some []
    else if c = '\n' then none
    else (takeGroupToSemicolon rest).map (c :: ·)

/-- Try to match `freq\s*=\s*(.*?);` at the head of `cs`, returning group 1. -/
def matchFreqAt (cs : List Char) : Option (List Char) :=
  if "freq".data.isPrefixOf cs then
    match (cs.drop 4).dropWhile isPySpace with
    | '=' :: rest => takeGroupToSemicolon (rest.dropWhile isPySpace)
    | _ => none
  else none

/-- `re.search(r'freq\s*=\s*(.*?);', block)`: leftmost match wins. -/
def searchFreq (cs : List Char) : Option (List Char) :=
  match cs with
  | [] => none
  | _ :: rest =>
    match matchFreqAt cs with
    | some g => some g
    | none => searchFreq rest

/-- The result `parse_channels` accumulates (uploader.py lines 150-151):
the frequency list and the diagnostic count of non-disabled blocks. -/
structure ChannelsResult where
  frequencies : List Int
  nonDisabledCount : Nat
  deriving DecidableEq, Repr

/-- The body of the per-block loop of `parse_channels` (uploader.py lines
170-188): test `disable = true;` membership, bump the non-disabled counter,
and when the filter admits the block, search for the `freq` assignment and
parse it, skipping the block on a `ValueError`. -/
def processBlock (skip_disabled : Bool) (acc : ChannelsResult)
    (block : List Char) : ChannelsResult :=
  let is_disabled := containsSub block "disable = true;".data
  let acc :=
    if ¬ is_disabled then
      { acc with nonDisabledCount := acc.nonDisabledCount + 1 }
    else acc
  if ¬ skip_disabled ∨ ¬ is_disabled then
    match searchFreq block with
    | some g =>
      match parse_frequency (pyStrip g) with
      | some hz => { acc with frequencies := acc.frequencies ++ [hz] }
      | none => acc
    | none => acc
  else acc

/-- `parse_channels` (uploader.py lines 137-200) at the level the spec gives
it: the configuration text and the `skipDisabled` flag are arguments (in the
source the text is read from `config_path` and the flag from the
`SKIP_DISABLED_CHANNELS` environment variable).  Section-extraction failure
yields the empty result. -/
def parse_channels (content : List Char) (skip_disabled : Bool) : ChannelsResult :=
  match extract_channels_content content with
  | none => ⟨[], 0⟩
  | some section_content =>
    (findBlocks section_content).foldl (processBlock skip_disabled) ⟨[], 0⟩

/-- `os.path.basename` on a POSIX path: everything after the last `/`. -/
def basename (p : List Char) : List Char :=
  (p.reverse.takeWhile (· ≠ '/')).reverse

/-- `UploadHandler.extract_frequency` (uploader.py lines 92-105):
`re.search(r'_(\d+)\.mp3$', basename)`.  Anchored at the end, the match is the
maximal trailing digit run of the name minus its `.mp3` suffix, preceded by
`_` (a digit run cannot contain `_`, so the leftmost-match rule of
`re.search` picks exactly this underscore or none). -/
def extract_frequency (file_path : List Char) : Option Nat :=
  let filename := basename file_path
  if ".mp3".data.isSuffixOf filename then
    let core := filename.take (filename.length - 4)
    let ds := (core.reverse.takeWhile (·.isDigit)).reverse
    if ds ≠ [] ∧ (core.take (core.length - ds.length)).getLast? = some '_' then
      some (digitsToNat ds)
    else none
  else none

/-- `UploadHandler.on_moved` (uploader.py lines 73-90), as a queue transition:
given the destination-table (`room_ids`, an association list), the event's
directory flag and destination path, and the queue contents, return the queue
after the handler runs.  The source guard is `if frequency and frequency in
self.room_ids:` — Python truthiness, so a frequency of `None` *or of `0`*
fails the guard. -/
def on_moved (room_ids : List (Nat × List Char)) (is_directory : Bool)
    (dest_path : List Char) (queue : List (List Char × List Char)) :
    List (List Char × List Char) :=
  if ¬ is_directory then
    if ".mp3".data.isSuffixOf dest_path then
      match extract_frequency dest_path with
      | some frequency =>
        if frequency ≠ 0 then
          match room_ids.lookup frequency with
          | some room_id => queue ++ [(dest_path, room_id)]
          | none => queue
        else queue
      | none => queue
    else queue
  else queue

/-- An observable action of `UploadHandler.upload_file`: a blob upload to the
media repository, or a room message send with its content record
(`msgtype`/`body`/`url`). -/
inductive UAction where
  | upload (filename : List Char)
  | send (room_id : List Char) (msgtype body url : List Char)
  deriving DecidableEq, Repr

/-- `UploadHandler.upload_file` (uploader.py lines 15-70) as the list of
actions it performs.  The collaborator outcomes are arguments:
`file_exists` — whether `open(file_path)` succeeds (`False` models the caught
`FileNotFoundError`); `upload_result` — `some uri` for a successful
`client.upload` returning content URI `uri`, `none` for an `UploadError`
response.  A failed `room_send` only changes the log line, not the actions,
so it needs no argument.  Every failure path is caught inside the function. -/
def upload_file (file_exists : Bool) (upload_result : Option (List Char))
    (file_path room_id : List Char) : List UAction :=
  if file_exists then
    match upload_result with
    | none => [.upload (basename file_path)]
    | some mxc_uri =>
      [.upload (basename file_path),
       .send room_id "m.audio".data (basename file_path) mxc_uri]
  else []

/-- One dequeued task together with its collaborator outcomes. -/
structure TaskRun where
  file_exists : Bool
  upload_result : Option (List Char)
  file_path : List Char
  room_id : List Char

/-- The consumer loop of `main` (uploader.py lines 321-324) over a finite
prefix of the queue: each task is handed to `upload_file` and runs to
completion (success or failure) before the next is dequeued; the loop body
never exits early. -/
def consumerRun (tasks : List TaskRun) : List (List UAction) :=
  tasks.map (fun t => upload_file t.file_exists t.upload_result t.file_path t.room_id)

/-- A scheduling event of the consumer loop of `main` (uploader.py lines
321-324): task `i` (by enqueue position) is dequeued, its upload attempt
starts, its upload attempt completes. -/
inductive LoopEv where
  | dequeue (i : Nat)
  | uploadStart (i : Nat)
  | uploadDone (i : Nat)
  deriving DecidableEq, Repr

/-- The event trace of the consumer loop over the first `n` queued tasks:
`await upload_queue.get()` (dequeue), then `await handler.upload_file(...)`
run to completion (start ... done), then the next iteration.  The loop body
is straight-line `await`s, so the trace is exactly this sequence. -/
def consumerTrace (n : Nat) : List LoopEv :=
  (List.range n).flatMap (fun i => [.dequeue i, .uploadStart i, .uploadDone i])

/-- Contribution of one scheduling event to the number of uploads in flight. -/
def evDelta : LoopEv → Int
  | .uploadStart _ => 1
  | .uploadDone _ => -1
  | .dequeue _ => 0

/-- Net number of uploads opened and not yet completed over a trace
(`uploadStart` minus `uploadDone` occurrences), as an integer. -/
def openUploads (tr : List LoopEv) : Int :=
  (tr.map evDelta).sum

/-- `get_or_create_room` (uploader.py lines 247-270): the `:.3f` format of
`frequency / 1000000` — the MHz value rounded to three decimals, i.e. to the
nearest kHz (ties to even, as float formatting rounds) — as `whole.frac`
character lists.  `natDigits` renders a `Nat` in decimal. -/
def natDigits (n : Nat) : List Char :=
  (Nat.toDigits 10 n)

/-- Pad a kHz remainder to exactly three digits. -/
def pad3 (n : Nat) : List Char :=
  if n < 10 then '0' :: '0' :: natDigits n
  else if n < 100 then '0' :: natDigits n
  else natDigits n

/-- The kHz count printed by `.3f`: the exact value of the double, times
1000, rounded to the nearest integer.  CPython formats the binary value with
correct rounding, ties to even; a decimal tie would need the dyadic value to
be an odd multiple of 1/2000, which no dyadic rational is, so the tie branch
of `roundNE` is unreachable here and any tie rule models the program. -/
def f64Khz (x : F64) : Nat :=
  if 0 ≤ x.e then x.m * 1000 * 2 ^ x.e.toNat
  else roundNE (x.m * 1000) (2 ^ (-x.e).toNat)

/-- `f"{frequency / 1000000:.3f}MHz"` (uploader.py line 253): the true
division `frequency / 1000000` is the correctly rounded double of the exact
quotient, and `.3f` renders that double with exactly three decimal digits,
then `MHz`. -/
def freq_label (frequency : Nat) : List Char :=
  let khz := f64Khz (f64OfRat frequency 1000000)
  natDigits (khz / 1000) ++ '.' :: pad3 (khz % 1000) ++ "MHz".data

/-- `full_alias = f"#{freq_str}:{domain}"` (uploader.py line 254). -/
def full_alias (frequency : Nat) (domain : List Char) : List Char :=
  '#' :: freq_label frequency ++ ':' :: domain

/-- `get_or_create_room` (uploader.py lines 247-270) with its collaborators as
arguments: `resolve` models `client.room_resolve_alias` (`some rid` when the
response has a truthy `room_id`), `create` models `client.room_create` applied
to the local alias part, room name and topic (`none` for a `RoomCreateError`
response, which the source turns into a raised exception — modelled as the
`none` result). -/
def get_or_create_room (resolve : List Char → Option (List Char))
    (create : List Char → List Char → List Char → Option (List Char))
    (frequency : Nat) (domain : List Char) : Option (List Char) :=
  let freq_str := freq_label frequency
  match resolve (full_alias frequency domain) with
  | some room_id => some room_id
  | none =>
    create freq_str ("Recordings for ".data ++ freq_str)
      ("Audio recordings for frequency ".data ++ freq_str)


/-- The configuration text of the spec's `parseChannels` example. -/
def exampleConfigText : List Char :=
  "channels: ( \x7bfreq = 145.500; \x7d \x7bfreq = \"121.5M\"; disable = true;\x7d );".data

/-- A configuration text whose single channel block has no `freq` assignment
and is not disabled. -/
def noFreqConfigText : List Char :=
  "channels: ( \x7bfoo = 1;\x7d );".data

/-- Whether an action is a blob upload. -/
def isUploadAct : UAction → Bool
  | .upload _ => true
  | .send _ _ _ _ => false

/-- Whether an action is a room message send. -/
def isSendAct : UAction → Bool
  | .upload _ => false
  | .send _ _ _ _ => true

/-- The optional decimal part of a quoted numeric literal, as the characters
it contributes after the integer digits: `.d₂` when present, nothing when
absent. -/
def decDot : Option (List Char) → List Char
  | some d2 => '.' :: d2
  | none => []

/-- The digits of the optional decimal part (empty when absent). -/
def decPart : Option (List Char) → List Char
  | some d2 => d2
  | none => []

/-- A double-quoted value string made of integer digits `d1`, an optional
decimal part `d2?` and a unit letter `u`: the value-string shape claim C2
quantifies over. -/
def quotedForm (d1 : List Char) (d2? : Option (List Char)) (u : Char) : List Char :=
  '"' :: (d1 ++ decDot d2? ++ [u]) ++ ['"']

end Uploader

namespace Uploader

lemma dropWhile_eq_self_of_head (p : Char → Bool) (s : List Char)
    (h : ∀ c ∈ s.head?, p c = false) : s.dropWhile p = s := by
  cases s with
  | nil => rfl
  | cons c t =>
    have hc : p c = false := h c rfl
    simp [List.dropWhile_cons, hc]

lemma pyStrip_eq_self_of_all (s : List Char) (h : ∀ c ∈ s, isPySpace c = false) :
    pyStrip s = s := by
  unfold pyStrip
  rw [dropWhile_eq_self_of_head _ _ (fun c hc => h c (List.mem_of_mem_head? hc)),
    dropWhile_eq_self_of_head _ _ (fun c hc => h c (by
      have := List.mem_of_mem_head? hc
      simpa using this)),
    List.reverse_reverse]

lemma takeWhile_append_all (p : Char → Bool) (d rest : List Char)
    (hd : ∀ c ∈ d, p c = true) (hr : ∀ c ∈ rest.head?, p c = false) :
    (d ++ rest).takeWhile p = d ∧ (d ++ rest).dropWhile p = rest := by
  induction d with
  | nil =>
    refine ⟨?_, dropWhile_eq_self_of_head p rest hr⟩
    cases rest with
    | nil => rfl
    | cons c t =>
      have hc : p c = false := hr c rfl
      simp [List.takeWhile_cons, hc]
  | cons c t ih =>
    have hc : p c = true := hd c (by simp)
    have iht := ih (fun x hx => hd x (by simp [hx]))
    simp [List.takeWhile_cons, List.dropWhile_cons, hc, iht.1, iht.2]

lemma not_isPySpace_of_isDigit {c : Char} (h : c.isDigit = true) :
    isPySpace c = false := by
  by_contra hne
  have hs : isPySpace c = true := by revert hne; cases isPySpace c <;> simp
  revert h
  simp only [isPySpace, Bool.or_eq_true, decide_eq_true_eq] at hs
  rcases hs with ((((rfl | rfl) | rfl) | rfl) | rfl) | rfl <;> decide

lemma isDigit_ne {c d : Char} (h : c.isDigit = true) (hd : d.isDigit = false) :
    c ≠ d := by
  rintro rfl
  simp [h] at hd

/-- C1: on the spec's two-block example configuration text — one enabled
bare-decimal channel 145.500 (MHz) and one disabled quoted channel "121.5M" —
parse_channels returns exactly [145500000] when skipping disabled channels and
exactly [145500000, 121500000] when not, in source (block) order. -/
theorem claim_C1 :
    (parse_channels exampleConfigText true).frequencies = [145500000] ∧
    (parse_channels exampleConfigText false).frequencies =
      [145500000, 121500000] := by
  decide

/-- C4 counterexample: a configuration whose single block has no freq
assignment and is not disabled.  The block contributes no frequency, but it
IS counted by the non-disabled counter (count = 1, not 0), refuting the
claim that such a block is not counted. -/
theorem claim_C4_counterexample :
    searchFreq "\x7bfoo = 1;\x7d".data = none ∧
    (parse_channels noFreqConfigText true).frequencies = [] ∧
    (parse_channels noFreqConfigText true).nonDisabledCount = 1 ∧
    (1 : Nat) ≠ 0 := by
  decide

/-- C4 amended: a block with no freq assignment contributes no frequency to
the output, but it is still counted toward the reported non-disabled count
exactly when it is not disabled (the counter is updated before and
independently of the freq lookup). -/
theorem claim_C4_amended (skip : Bool) (acc : ChannelsResult) (block : List Char)
    (h : searchFreq block = none) :
    (processBlock skip acc block).frequencies = acc.frequencies ∧
    (processBlock skip acc block).nonDisabledCount =
      acc.nonDisabledCount +
        (if containsSub block "disable = true;".data then 0 else 1) := by
  simp only [processBlock, h]
  by_cases hd : containsSub block "disable = true;".data = true <;>
    by_cases hs : skip = true <;>
      simp [hd, hs]

theorem claim_C4_amended_witness :
    searchFreq "\x7bfoo = 1;\x7d".data = none ∧
    ((processBlock true ⟨[], 0⟩ "\x7bfoo = 1;\x7d".data).frequencies =
        (⟨[], 0⟩ : ChannelsResult).frequencies ∧
      (processBlock true ⟨[], 0⟩ "\x7bfoo = 1;\x7d".data).nonDisabledCount =
        (⟨[], 0⟩ : ChannelsResult).nonDisabledCount +
          (if containsSub "\x7bfoo = 1;\x7d".data "disable = true;".data
            then 0 else 1)) :=
  ⟨by decide, claim_C4_amended true ⟨[], 0⟩ _ (by decide)⟩

/-- C5 counterexample: on a configuration with whitespace just inside the
outer parentheses, the returned section is NOT character-for-character the
substring strictly between them: the source applies .strip() to it. -/
theorem claim_C5_counterexample :
    extract_channels_content "channels: ( \x7bf\x7d );".data = some "\x7bf\x7d".data ∧
    extractRawBetween "channels: ( \x7bf\x7d );".data = some " \x7bf\x7d ".data ∧
    "\x7bf\x7d".data ≠ " \x7bf\x7d ".data := by
  decide

/-- C5 amended: whenever section extraction succeeds, the returned section is
the substring of the input strictly between the outer parentheses with
leading and trailing whitespace stripped. -/
theorem claim_C5_amended (content : List Char) :
    extract_channels_content content = (extractRawBetween content).map pyStrip := by
  unfold extract_channels_content extractRawBetween
  cases pyFind content "channels:".data 0 with
  | none => rfl
  | some channels_start =>
    dsimp only
    cases pyFind content "(".data channels_start with
    | none => rfl
    | some paren_start =>
      dsimp only
      cases findMatchingParen (content.drop paren_start) paren_start 0 with
      | none => rfl
      | some i =>
        dsimp only
        by_cases h : (content.drop (i + 1)).head? = some ';'
        · rw [if_pos h, if_pos h]
          rfl
        · rw [if_neg h, if_neg h]
          rfl

/-- C6 counterexample: a rename event for rec_0.mp3 whose digit group parses
to 0, with 0 a key of the destination table, appends NO task: the source
guard uses Python truthiness (`if frequency and ...`), which treats the
frequency 0 like a failed extraction. -/
theorem claim_C6_counterexample :
    extract_frequency "rec_0.mp3".data = some 0 ∧
    (([(0, "!room0".data)] : List (Nat × List Char)).lookup 0
      = some "!room0".data) ∧
    on_moved [(0, "!room0".data)] false "rec_0.mp3".data [] = [] ∧
    ([] : List (List Char × List Char)) ≠ [("rec_0.mp3".data, "!room0".data)] := by
  decide

/-- C6 amended: for a non-directory rename event whose destination name ends
in .mp3 and whose trailing digit group parses to a NONZERO integer that is a
key of the destination table, exactly one task (path, destination) is
appended to the queue; a digit group parsing to 0 is dropped by the
truthiness guard even when 0 is a key. -/
theorem claim_C6_amended (room_ids : List (Nat × List Char))
    (dest_path room_id : List Char) (queue : List (List Char × List Char))
    (freq : Nat)
    (hext : ".mp3".data.isSuffixOf dest_path = true)
    (hfreq : extract_frequency dest_path = some freq)
    (hnz : freq ≠ 0)
    (hroom : room_ids.lookup freq = some room_id) :
    on_moved room_ids false dest_path queue = queue ++ [(dest_path, room_id)] := by
  simp [on_moved, hext, hfreq, hnz, hroom]

theorem claim_C6_amended_witness :
    on_moved [(145500000, "!room".data)] false "rec_145500000.mp3".data []
      = [] ++ [("rec_145500000.mp3".data, "!room".data)] :=
  claim_C6_amended [(145500000, "!room".data)] "rec_145500000.mp3".data
    "!room".data [] 145500000 (by decide) (by decide) (by decide) (by decide)

/-- C10: the destination label formats the binary64 quotient frequency/10^6
with exactly three decimal digits (rounding the double to the nearest kHz),
so any two frequencies with the same label yield the same alias, and
get_or_create_room — run against the same resolve/create collaborators —
returns the same destination identifier
for both rather than distinct destinations. -/
theorem claim_C10 (f1 f2 : Nat) (resolve : List Char → Option (List Char))
    (create : List Char → List Char → List Char → Option (List Char))
    (domain : List Char) (h : freq_label f1 = freq_label f2) :
    full_alias f1 domain = full_alias f2 domain ∧
    get_or_create_room resolve create f1 domain
      = get_or_create_room resolve create f2 domain := by
  have ha : full_alias f1 domain = full_alias f2 domain := by
    unfold full_alias
    rw [h]
  refine ⟨ha, ?_⟩
  unfold get_or_create_room
  rw [h, ha]

theorem claim_C10_witness :
    (145500000 : Nat) ≠ 145500400 ∧
    freq_label 145500000 = freq_label 145500400 ∧
    freq_label 145500400 = "145.500MHz".data ∧
    freq_label 145504500 = "145.505MHz".data ∧
    (full_alias 145500000 "example.org".data
        = full_alias 145500400 "example.org".data ∧
      get_or_create_room (fun _ => none) (fun a _ _ => some a) 145500000
          "example.org".data
        = get_or_create_room (fun _ => none) (fun a _ _ => some a) 145500400
          "example.org".data) :=
  ⟨by decide, by decide, by decide, by decide,
    claim_C10 145500000 145500400 (fun _ => none) (fun a _ _ => some a)
      "example.org".data (by decide)⟩

end Uploader

namespace Uploader

lemma consumerTrace_succ (n : Nat) :
    consumerTrace (n + 1) = consumerTrace n ++
      [.dequeue n, .uploadStart n, .uploadDone n] := by
  unfold consumerTrace
  rw [List.range_succ, List.flatMap_append]
  simp

lemma consumerTrace_length (n : Nat) : (consumerTrace n).length = 3 * n := by
  induction n with
  | zero => rfl
  | succ n ih =>
    rw [consumerTrace_succ, List.length_append, ih]
    simp
    omega

lemma openUploads_append (a b : List LoopEv) :
    openUploads (a ++ b) = openUploads a + openUploads b := by
  simp [openUploads]

lemma openUploads_consumerTrace (n : Nat) : openUploads (consumerTrace n) = 0 := by
  induction n with
  | zero => rfl
  | succ n ih =>
    rw [consumerTrace_succ, openUploads_append, ih]
    rfl

lemma openUploads_take_bounds (n p : Nat) :
    0 ≤ openUploads ((consumerTrace n).take p) ∧
    openUploads ((consumerTrace n).take p) ≤ 1 := by
  induction n generalizing p with
  | zero => simp [consumerTrace, openUploads]
  | succ n ih =>
    rw [consumerTrace_succ, List.take_append_eq_append_take, openUploads_append]
    rcases le_or_lt p (consumerTrace n).length with h | h
    · have h0 : p - (consumerTrace n).length = 0 := Nat.sub_eq_zero_of_le h
      rw [h0]
      simpa [openUploads] using ih p
    · rw [List.take_of_length_le h.le, openUploads_consumerTrace]
      set m := p - (consumerTrace n).length with hm
      have h1 : 1 ≤ m := by omega
      rcases Nat.lt_or_ge m 3 with h3 | h3
      · interval_cases m <;> simp [openUploads, evDelta]
      · rw [List.take_of_length_le (by simpa using h3)]
        simp [openUploads, evDelta]

lemma consumerTrace_add (a b : Nat) :
    consumerTrace (a + b) = consumerTrace a ++
      (List.range b).flatMap (fun j =>
        [.dequeue (a + j), .uploadStart (a + j), .uploadDone (a + j)]) := by
  unfold consumerTrace
  rw [List.range_add, List.flatMap_append, List.flatMap_map]

/-- C7: the consumer loop is strict FIFO, one task at a time.  For any two
consecutive enqueued tasks i and i+1, the loop trace is exactly: the full
processing of tasks 0..i-1, then dequeue/start/done for task i, then —
only after task i's upload attempt has fully completed — dequeue of task i+1
and its processing.  Moreover at every point of the trace at most one upload
is in flight. -/
theorem claim_C7 (n i : Nat) (h : i + 1 < n) :
    (∃ post, consumerTrace n =
        consumerTrace i ++
          ([.dequeue i, .uploadStart i, .uploadDone i] ++
            [.dequeue (i + 1), .uploadStart (i + 1), .uploadDone (i + 1)]) ++ post ∧
        (consumerTrace i).length = 3 * i) ∧
    (∀ p, 0 ≤ openUploads ((consumerTrace n).take p) ∧
      openUploads ((consumerTrace n).take p) ≤ 1) := by
  constructor
  · have hn : n = (i + 2) + (n - (i + 2)) := by omega
    refine ⟨(List.range (n - (i + 2))).flatMap
      (fun j => [.dequeue (i + 2 + j), .uploadStart (i + 2 + j),
        .uploadDone (i + 2 + j)]), ?_, consumerTrace_length i⟩
    conv_lhs => rw [hn]
    rw [consumerTrace_add]
    have h2 : consumerTrace (i + 2) =
        consumerTrace i ++
          ([.dequeue i, .uploadStart i, .uploadDone i] ++
            [.dequeue (i + 1), .uploadStart (i + 1), .uploadDone (i + 1)]) := by
      rw [show i + 2 = i + 1 + 1 from rfl, consumerTrace_succ, consumerTrace_succ]
      simp
    rw [h2]
  · intro p
    exact openUploads_take_bounds n p

theorem claim_C7_witness :
    (∃ post, consumerTrace 3 =
        consumerTrace 0 ++
          ([.dequeue 0, .uploadStart 0, .uploadDone 0] ++
            [.dequeue 1, .uploadStart 1, .uploadDone 1]) ++ post ∧
        (consumerTrace 0).length = 3 * 0) ∧
    (∀ p, 0 ≤ openUploads ((consumerTrace 3).take p) ∧
      openUploads ((consumerTrace 3).take p) ≤ 1) :=
  claim_C7 3 0 (by decide)

/-- C8: for each dequeued task, upload_file performs at most one blob upload;
a message send happens exactly when the upload succeeded (file opened and
upload response not an error), and its content is the audio message type,
the file's base name as body, and the returned content URI as url; every
failure yields no send and ends only that task; the consumer loop processes
every task regardless of per-task outcomes. -/
theorem claim_C8 (fe : Bool) (ur : Option (List Char)) (fp rid : List Char)
    (tasks : List TaskRun) :
    ((upload_file fe ur fp rid).countP isUploadAct ≤ 1) ∧
    ((upload_file fe ur fp rid).filter isSendAct =
      if fe then
        (ur.map fun uri => UAction.send rid "m.audio".data (basename fp) uri).toList
      else []) ∧
    (fe = false → upload_file fe ur fp rid = []) ∧
    (ur = none → (upload_file fe ur fp rid).filter isSendAct = []) ∧
    ((consumerRun tasks).length = tasks.length) := by
  cases fe <;> cases ur <;>
    simp [upload_file, consumerRun, isUploadAct, isSendAct]

theorem claim_C8_witness :
    ((upload_file true (some "mxc://srv/x".data)
        "/recordings/capture_121500000.mp3".data "!room".data).countP
        isUploadAct ≤ 1) ∧
    ((upload_file true (some "mxc://srv/x".data)
        "/recordings/capture_121500000.mp3".data "!room".data).filter isSendAct =
      if true then
        ((some "mxc://srv/x".data).map fun uri =>
          UAction.send "!room".data "m.audio".data
            (basename "/recordings/capture_121500000.mp3".data) uri).toList
      else []) ∧
    (true = false → upload_file true (some "mxc://srv/x".data)
        "/recordings/capture_121500000.mp3".data "!room".data = []) ∧
    (some "mxc://srv/x".data = none →
      (upload_file true (some "mxc://srv/x".data)
        "/recordings/capture_121500000.mp3".data "!room".data).filter
        isSendAct = []) ∧
    ((consumerRun [⟨true, some "mxc://srv/x".data,
        "/recordings/capture_121500000.mp3".data, "!room".data⟩]).length =
      [(⟨true, some "mxc://srv/x".data,
        "/recordings/capture_121500000.mp3".data, "!room".data⟩ : TaskRun)].length) :=
  claim_C8 true (some "mxc://srv/x".data)
    "/recordings/capture_121500000.mp3".data "!room".data
    [⟨true, some "mxc://srv/x".data,
      "/recordings/capture_121500000.mp3".data, "!room".data⟩]

end Uploader

namespace Uploader

lemma takeWhile_all (p : Char → Bool) (l : List Char) (h : ∀ c ∈ l, p c = true) :
    l.takeWhile p = l ∧ l.dropWhile p = [] := by
  have h2 := takeWhile_append_all p l [] (by simpa using h)
    (by intro c hc; simp at hc)
  simpa using h2

lemma head_not_char (d1 : List Char) (c q : Char) (rest : List Char)
    (hd : ∀ x ∈ d1, x.isDigit = true) (hq : q.isDigit = false) (hcq : c ≠ q) :
    ¬ (d1 ++ c :: rest).head? = some q := by
  cases d1 with
  | nil =>
    intro h
    simp at h
    exact hcq h
  | cons a t =>
    intro h
    simp at h
    have ha := hd a (by simp)
    rw [h] at ha
    simp [hq] at ha

/-- C3 counterexample: the bare decimal "0.0000009" has exact value 9/10^7;
the source truncates (int()) giving 0 Hz, while round(float(v) * 10^6), as
the claim states it, gives 1. -/
theorem claim_C3_counterexample :
    parse_frequency "0.0000009".data = some 0 ∧
    round (((9 : ℚ) / 10 ^ 7) * 1000000) = 1 ∧
    (0 : Int) ≠ 1 := by
  refine ⟨by decide, by norm_num [round_eq], by decide⟩

/-- C3 amended: for every bare decimal numeral d1.d2 (digit strings, at
least one nonempty, with the integer part short enough to keep the value in
binary64's finite range), parse_frequency computes int(float(v) * 1_000_000):
the correctly rounded binary64 value of the decimal numeral, one binary64
multiplication by 10^6, then truncation toward zero — not round() to the
nearest integer.  (For sub-normally small values the intermediate double has
reduced precision, but the truncated result is 0 in both the program and the
model, so the stated equation still matches the program there.) -/
theorem claim_C3_amended (d1 d2 : List Char)
    (h1 : ∀ c ∈ d1, c.isDigit = true) (h2 : ∀ c ∈ d2, c.isDigit = true)
    (h3 : d1 ≠ [] ∨ d2 ≠ []) (_h4 : d1.length ≤ 300) :
    parse_frequency (d1 ++ '.' :: d2) =
      some ((f64Trunc (f64MulNat
        (f64OfRat (digitsToNat (d1 ++ d2)) (10 ^ d2.length)) 1000000) : Int)) := by
  have hall : ∀ c ∈ d1 ++ '.' :: d2, isPySpace c = false := by
    intro c hc
    rcases List.mem_append.1 hc with hc | hc
    · exact not_isPySpace_of_isDigit (h1 c hc)
    · rcases List.mem_cons.1 hc with rfl | hc
      · decide
      · exact not_isPySpace_of_isDigit (h2 c hc)
  have htw := takeWhile_append_all (·.isDigit) d1 ('.' :: d2) h1
    (by intro c hc; simp at hc; subst hc; decide)
  have htd := takeWhile_all (·.isDigit) d2 h2
  have hnq : ¬ ((d1 ++ '.' :: d2).head? = some '"' ∧
      (d1 ++ '.' :: d2).getLast? = some '"') :=
    fun h => head_not_char d1 '.' '"' d2 h1 (by decide) (by decide) h.1
  have hcont : (d1 ++ '.' :: d2).contains '.' = true :=
    List.elem_eq_true_of_mem (by simp)
  have hnm : ¬ (d1 ++ '.' :: d2).head? = some '-' :=
    head_not_char d1 '.' '-' d2 h1 (by decide) (by decide)
  have hnp : ¬ (d1 ++ '.' :: d2).head? = some '+' :=
    head_not_char d1 '.' '+' d2 h1 (by decide) (by decide)
  have hpd : parseDecimal (d1 ++ '.' :: d2) =
      some (false, digitsToNat (d1 ++ d2), 10 ^ d2.length) := by
    unfold parseDecimal
    rw [if_neg hnm, if_neg hnp]
    dsimp only
    rw [htw.1, htw.2]
    dsimp only [List.head?_cons, List.drop_succ_cons, List.drop_zero]
    rw [if_pos rfl, htd.1, htd.2, if_pos ⟨rfl, h3⟩]
  unfold parse_frequency
  rw [pyStrip_eq_self_of_all _ hall]
  unfold parse_frequency_stripped
  rw [if_neg hnq, if_pos hcont, hpd]
  simp

theorem claim_C3_amended_witness :
    parse_frequency "145.500".data = some 145500000 ∧
    parse_frequency "0.000249".data = some 248 ∧
    parse_frequency (['1', '4', '5'] ++ '.' :: ['5', '0', '0']) =
      some ((f64Trunc (f64MulNat
        (f64OfRat (digitsToNat (['1', '4', '5'] ++ ['5', '0', '0']))
          (10 ^ (['5', '0', '0'] : List Char).length)) 1000000) : Int)) :=
  ⟨by decide, by decide, claim_C3_amended ['1', '4', '5'] ['5', '0', '0']
    (by decide) (by decide) (by decide) (by decide)⟩

end Uploader

namespace Uploader

lemma matchQuotedValue_form (d1 : List Char) (d2? : Option (List Char)) (u : Char)
    (h1 : d1 ≠ []) (h1d : ∀ c ∈ d1, c.isDigit = true)
    (h2d : ∀ c ∈ decPart d2?, c.isDigit = true)
    (hud : u.isDigit = false) (hdot : u ≠ '.')
    (hunit : (u = 'k' || u = 'K' || u = 'm' || u = 'M' || u = 'g' || u = 'G')
      = true) :
    matchQuotedValue (d1 ++ decDot d2? ++ [u]) =
      some ((digitsToNat (d1 ++ decPart d2?), 10 ^ (decPart d2?).length),
        some u) := by
  cases d2? with
  | none =>
    have htw := takeWhile_append_all (·.isDigit) d1 [u] h1d
      (by intro c hc; simp at hc; subst hc; exact hud)
    unfold matchQuotedValue
    simp only [decDot, decPart, List.append_nil] at htw ⊢
    rw [htw.1, htw.2, if_neg h1,
      if_neg (by intro h; simp at h; exact hdot h)]
    dsimp only
    rw [if_pos hunit]
    simp
  | some d2 =>
    have hassoc : d1 ++ decDot (some d2) ++ [u] = d1 ++ '.' :: (d2 ++ [u]) := by
      simp [decDot]
    have htw := takeWhile_append_all (·.isDigit) d1 ('.' :: (d2 ++ [u])) h1d
      (by intro c hc; simp at hc; subst hc; decide)
    have htd := takeWhile_append_all (·.isDigit) d2 [u]
      (by simpa [decPart] using h2d)
      (by intro c hc; simp at hc; subst hc; exact hud)
    unfold matchQuotedValue
    rw [hassoc, htw.1, htw.2, if_neg h1]
    dsimp only [List.head?_cons, List.drop_succ_cons, List.drop_zero]
    rw [if_pos rfl, htd.1, htd.2]
    dsimp only
    rw [if_pos hunit]
    simp [decPart]

/-- C2 counterexample: the claim's own example value "121500k" — by the
multiplier table the claim itself states (k = 10^3) — parses to 121500000 Hz,
not the 121500000000 the claim asserts. -/
theorem claim_C2_counterexample :
    parse_frequency "\"121500k\"".data = some 121500000 ∧
    (121500000 : Int) ≠ 121500000000 := by
  decide

/-- C2 amended: for every quoted value string of digits (with an optional
decimal part) followed by a single case-insensitive unit letter k, m or g,
with the integer part short enough to keep the product in binary64's finite
range, parse_frequency converts the numeral to its correctly rounded binary64
value (float), multiplies once in binary64 by 10^3, 10^6 or 10^9
respectively, and truncates to an integer; in particular "121.5M" gives
121500000 and "121500k" gives 121500000 (not 121500000000). -/
theorem claim_C2_amended (d1 : List Char) (d2? : Option (List Char)) (u : Char)
    (h1 : d1 ≠ []) (h1d : ∀ c ∈ d1, c.isDigit = true)
    (h2d : ∀ c ∈ decPart d2?, c.isDigit = true)
    (hu : u ∈ ['k', 'K', 'm', 'M', 'g', 'G']) (_hsz : d1.length ≤ 290) :
    parse_frequency (quotedForm d1 d2? u) =
      some ((f64Trunc (f64MulNat
        (f64OfRat (digitsToNat (d1 ++ decPart d2?)) (10 ^ (decPart d2?).length))
        (if u = 'k' ∨ u = 'K' then 1000
          else if u = 'm' ∨ u = 'M' then 1000000 else 1000000000)) : Int)) := by
  have hud : u.isDigit = false := by fin_cases hu <;> decide
  have hdot : u ≠ '.' := by fin_cases hu <;> decide
  have hunit : (u = 'k' || u = 'K' || u = 'm' || u = 'M' || u = 'g' || u = 'G')
      = true := by fin_cases hu <;> decide
  have hus : isPySpace u = false := by fin_cases hu <;> decide
  have hall : ∀ c ∈ quotedForm d1 d2? u, isPySpace c = false := by
    intro c hc
    unfold quotedForm at hc
    rcases List.mem_cons.1 hc with rfl | hc2
    · decide
    · rcases List.mem_append.1 hc2 with hc3 | hc3
      · rcases List.mem_append.1 hc3 with hc4 | hc4
        · rcases List.mem_append.1 hc4 with hc5 | hc5
          · exact not_isPySpace_of_isDigit (h1d c hc5)
          · cases d2? with
            | none => simp [decDot] at hc5
            | some d2 =>
              rcases List.mem_cons.1 (by simpa [decDot] using hc5) with rfl | hc6
              · decide
              · exact not_isPySpace_of_isDigit (h2d c
                  (by simpa [decPart] using hc6))
        · obtain rfl := List.mem_singleton.1 hc4
          exact hus
      · obtain rfl := List.mem_singleton.1 hc3
        decide
  unfold parse_frequency
  rw [pyStrip_eq_self_of_all _ hall]
  unfold parse_frequency_stripped quotedForm
  rw [if_pos ⟨rfl, by rw [← List.cons_append, List.getLast?_concat]⟩]
  have hinner : ((('"' :: ((d1 ++ decDot d2? ++ [u]) ++ ['"'])).drop 1).dropLast)
      = d1 ++ decDot d2? ++ [u] := by
    rw [List.drop_succ_cons, List.drop_zero, List.dropLast_concat]
  rw [show ('"' :: (d1 ++ decDot d2? ++ [u]) ++ ['"'] : List Char)
      = '"' :: ((d1 ++ decDot d2? ++ [u]) ++ ['"']) from rfl]
  rw [hinner, matchQuotedValue_form d1 d2? u h1 h1d h2d hud hdot hunit]
  dsimp only [Option.map_some]
  fin_cases hu <;> simp

theorem claim_C2_amended_witness :
    parse_frequency "\"121.5M\"".data = some 121500000 ∧
    parse_frequency "\"0.000249m\"".data = some 248 ∧
    parse_frequency "\"9007199254740993k\"".data = some 9007199254740992000 ∧
    quotedForm ['1', '2', '1'] (some ['5']) 'M' = "\"121.5M\"".data ∧
    parse_frequency (quotedForm ['1', '2', '1'] (some ['5']) 'M') =
      some ((f64Trunc (f64MulNat
        (f64OfRat (digitsToNat (['1', '2', '1'] ++ decPart (some ['5'])))
          (10 ^ (decPart (some ['5'])).length))
        (if 'M' = 'k' ∨ 'M' = 'K' then 1000
          else if 'M' = 'm' ∨ 'M' = 'M' then 1000000 else 1000000000)) : Int)) :=
  ⟨by decide, by decide, by decide, by decide,
    claim_C2_amended ['1', '2', '1'] (some ['5']) 'M' (by decide) (by decide)
      (by decide) (by decide) (by decide)⟩

end Uploader
